import Mathlib

/-!
Shallow embedding of the neomutt mailbox core described by `src/mailbox.h`
and `src/config/quad.h`, together with the operations those headers declare.
The headers give the data model (struct Mailbox, enum QuadOption, the ACL
bit constants); the bodies of the declared operations are not part of the
excerpt, so each operation is modelled from the specification and marked as
such in its doc comment.
-/

namespace Neomutt

/-- enum QuadOption from `src/config/quad.h`:
MUTT_ABORT = -1, MUTT_NO, MUTT_YES, MUTT_ASKNO, MUTT_ASKYES. -/
inductive QuadOption where
  | MUTT_ABORT
  | MUTT_NO
  | MUTT_YES
  | MUTT_ASKNO
  | MUTT_ASKYES
deriving DecidableEq, Repr

/-- The integer value of each enumerator, as assigned by the C enum. -/
def QuadOption.toInt : QuadOption → Int
  | .MUTT_ABORT => -1
  | .MUTT_NO => 0
  | .MUTT_YES => 1
  | .MUTT_ASKNO => 2
  | .MUTT_ASKYES => 3

/-- Error kinds of spec section 7 that the modelled operations can report. -/
inductive MbError where
  | NotFound
  | PermissionDenied
  | ImmutablePolicy
  | AlreadyClosed
deriving DecidableEq, Repr

/-- Modelled from the spec: the confirmation-value toggle underlying
`quad_he_toggle` (its body is not in the excerpt).  Spec section 4.5:
"toggle(value) -> value' maps No→Yes, Yes→No, AskNo→AskYes, AskYes→AskNo,
and fails with an immutable policy condition" for a value that is not an
interactively togglable confirmation value (MUTT_ABORT). -/
def quad_toggle : QuadOption → Except MbError QuadOption
  | .MUTT_NO => .ok .MUTT_YES
  | .MUTT_YES => .ok .MUTT_NO
  | .MUTT_ASKNO => .ok .MUTT_ASKYES
  | .MUTT_ASKYES => .ok .MUTT_ASKNO
  | .MUTT_ABORT => .error .ImmutablePolicy

/-- Modelled from the spec: `quad_he_toggle` from `src/config/quad.h` line 45,
whose body is not in the excerpt.  Spec sections 3 and 4.5: "a bound
yes/no-is-fixed-by-policy variant must reject toggling"; the `locked` flag
records that the bound variant fixes the policy, in which case the toggle
fails with ImmutablePolicy and never silently returns a value. -/
def quad_he_toggle (locked : Bool) (v : QuadOption) : Except MbError QuadOption :=
  if locked then .error .ImmutablePolicy else quad_toggle v

/-- `#define MUTT_ACL_NO_FLAGS 0` -/
def MUTT_ACL_NO_FLAGS : Nat := 0
/-- `#define MUTT_ACL_ADMIN (1 << 0)` -/
def MUTT_ACL_ADMIN : Nat := 1 <<< 0
/-- `#define MUTT_ACL_CREATE (1 << 1)` -/
def MUTT_ACL_CREATE : Nat := 1 <<< 1
/-- `#define MUTT_ACL_DELETE (1 << 2)` -/
def MUTT_ACL_DELETE : Nat := 1 <<< 2
/-- `#define MUTT_ACL_DELMX (1 << 3)` -/
def MUTT_ACL_DELMX : Nat := 1 <<< 3
/-- `#define MUTT_ACL_EXPUNGE (1 << 4)` -/
def MUTT_ACL_EXPUNGE : Nat := 1 <<< 4
/-- `#define MUTT_ACL_INSERT (1 << 5)` -/
def MUTT_ACL_INSERT : Nat := 1 <<< 5
/-- `#define MUTT_ACL_LOOKUP (1 << 6)` -/
def MUTT_ACL_LOOKUP : Nat := 1 <<< 6
/-- `#define MUTT_ACL_POST (1 << 7)` -/
def MUTT_ACL_POST : Nat := 1 <<< 7
/-- `#define MUTT_ACL_READ (1 << 8)` -/
def MUTT_ACL_READ : Nat := 1 <<< 8
/-- `#define MUTT_ACL_SEEN (1 << 9)` -/
def MUTT_ACL_SEEN : Nat := 1 <<< 9
/-- `#define MUTT_ACL_WRITE (1 << 10)` -/
def MUTT_ACL_WRITE : Nat := 1 <<< 10
/-- `#define MUTT_ACL_ALL ((1 << 11) - 1)` -/
def MUTT_ACL_ALL : Nat := (1 <<< 11) - 1

/-- The eleven single-capability constants, in bit order. -/
def aclCaps : List Nat :=
  [MUTT_ACL_ADMIN, MUTT_ACL_CREATE, MUTT_ACL_DELETE, MUTT_ACL_DELMX,
   MUTT_ACL_EXPUNGE, MUTT_ACL_INSERT, MUTT_ACL_LOOKUP, MUTT_ACL_POST,
   MUTT_ACL_READ, MUTT_ACL_SEEN, MUTT_ACL_WRITE]

/-- A message record, reduced to the summary fields the core consumes
(spec section 6): a stable identifier, a subject, a label, and the
deleted flag that drives `mark_deleted` and `purge`. -/
structure Email where
  id : String
  subject : String
  label : String
  deleted : Bool
deriving DecidableEq, Repr

/-- struct Mailbox from `src/mailbox.h` lines 93-150, restricted to the
fields the claims are about: the record slot array `emails` (live slots
only; a purged record no longer occupies a slot), the virtual view `v2r`
with its count `vcount`, the ACL `rights` mask, the three cross-reference
indices `id_hash`, `subj_hash`, `label_hash` (association lists keyed by
the normalized string, valued by the real record index), the backend
private-data presence `mdata` (true iff the C pointer is non-null), and
the nested open count `opened`. -/
structure Mailbox where
  emails : List Email
  v2r : List Nat
  vcount : Nat
  rights : Nat
  id_hash : List (String × Nat)
  subj_hash : List (String × Nat)
  label_hash : List (String × Nat)
  mdata : Bool
  opened : Nat
deriving DecidableEq, Repr

/-- Modelled from the spec: `mailbox_new` (`src/mailbox.h` line 180), whose
body is not in the excerpt.  Spec section 3: "a store is constructed empty"
with a well-defined empty view, and "Default for a newly constructed store
is all rights". -/
def mailbox_new : Mailbox :=
  { emails := [], v2r := [], vcount := 0, rights := MUTT_ACL_ALL,
    id_hash := [], subj_hash := [], label_hash := [],
    mdata := false, opened := 0 }

/-- Rebuild one cross-reference index from scratch: each record's key,
paired with its real slot index. -/
def buildIndex (key : Email → String) (emails : List Email) : List (String × Nat) :=
  emails.enum.map (fun p => (key p.2, p.1))

/-- Modelled from the spec: `append(record) -> slot_index` (spec section
4.1) grows the slot array, inserts the record at the end, returns its real
index, never touches existing virtual-view entries; the three
cross-reference indices are incrementally maintained (spec section 4.3). -/
def append (m : Mailbox) (e : Email) : Mailbox × Nat :=
  let n := m.emails.length
  ({ m with emails := m.emails ++ [e],
            id_hash := m.id_hash ++ [(e.id, n)],
            subj_hash := m.subj_hash ++ [(e.subject, n)],
            label_hash := m.label_hash ++ [(e.label, n)] }, n)

/-- Modelled from the spec: `mark_deleted(slot_index)` (spec section 4.1)
performs logical deletion only; an out-of-range index leaves the store
unchanged. -/
def mark_deleted (m : Mailbox) (i : Nat) : Mailbox :=
  match m.emails[i]? with
  | some e => { m with emails := m.emails.set i { e with deleted := true } }
  | none => m

/-- The real slot indices that pass the view predicate, in slot order. -/
def viewSlots (m : Mailbox) (p : Email → Bool) : List Nat :=
  (List.range m.emails.length).filter (fun i => ((m.emails[i]?).map p).getD false)

/-- Insert a real index into an ordered run of real indices, placing it
after every entry the comparator puts no later than it, so that equal
comparator keys keep their existing relative order (stability, spec
section 4.1). -/
def insertOrdered (le : Nat → Nat → Bool) (x : Nat) : List Nat → List Nat
  | [] => [x]
  | y :: ys => if le x y then x :: y :: ys else y :: insertOrdered le x ys

/-- Stable sort of real indices by the comparator: a right fold of stable
insertion, so an element inserted earlier in slot order stays before later
elements with equal keys. -/
def sortOrdered (le : Nat → Nat → Bool) (l : List Nat) : List Nat :=
  l.foldr (insertOrdered le) []

/-- Modelled from the spec: `rebuild_view(predicate, comparator)` (spec
section 4.1) recomputes `v2r` by filtering slot indices through the
predicate and stably ordering them by the comparator (the comparator
receives real slot indices). -/
def rebuild_view (m : Mailbox) (p : Email → Bool) (le : Nat → Nat → Bool) : Mailbox :=
  let view := sortOrdered le (viewSlots m p)
  { m with v2r := view, vcount := view.length }

/-- Modelled from the spec: `purge()` (spec section 4.1) removes deleted
slots, compacts the array, and in the same atomic step forces a rebuild of
the virtual view (to the default insertion-order view over the surviving
records) and of all three cross-reference indices, so no stale entry
survives (spec section 4.3). -/
def purge (m : Mailbox) : Mailbox :=
  let kept := m.emails.filter (fun e => !e.deleted)
  { m with emails := kept,
           v2r := List.range kept.length,
           vcount := kept.length,
           id_hash := buildIndex (fun e => e.id) kept,
           subj_hash := buildIndex (fun e => e.subject) kept,
           label_hash := buildIndex (fun e => e.label) kept }

/-- Modelled from the spec: a delete-message operation guarded by the
rights mask (spec sections 7 and 8): `PermissionDenied` when the
MUTT_ACL_DELETE capability is absent, `NotFound` when the slot does not
exist; a rejected operation has no partial effect, so the store comes back
unchanged alongside the error. -/
def delete_message (m : Mailbox) (i : Nat) : Mailbox × Option MbError :=
  if m.rights &&& MUTT_ACL_DELETE = 0 then (m, some MbError.PermissionDenied)
  else if i < m.emails.length then (mark_deleted m i, none)
  else (m, some MbError.NotFound)

/-- Modelled from the spec: `close` decrements the nested open count (spec
section 3); closing an already-closed store is a no-op that reports a
defined error and never touches backend private data (spec sections 4.2
and 8). -/
def mailbox_close (m : Mailbox) : Mailbox × Option MbError :=
  if m.opened = 0 then (m, some MbError.AlreadyClosed)
  else ({ m with opened := m.opened - 1 }, none)

/-- Modelled from the spec: `mailbox_free` (`src/mailbox.h` line 179),
whose body is not in the excerpt.  Destroying the store invokes the paired
destructor `free_mdata` on the backend private data exactly when that data
is non-null (spec sections 3 and 8); the result counts the destructor
invocations this teardown performs. -/
def mailbox_free (m : Mailbox) : Nat :=
  if m.mdata then 1 else 0

/-- A store lifecycle state: the store while it is alive (`none` once
destroyed), together with the running total of `free_mdata` destructor
invocations performed over the whole lifecycle. -/
structure MbSys where
  mb : Option Mailbox
  freeCalls : Nat
deriving DecidableEq, Repr

/-- The lifecycle operations a caller can issue against a store. -/
inductive MbOp where
  | attach
  | close
  | free
  | appendOp (e : Email)
  | deleteOp (i : Nat)
  | purgeOp
deriving DecidableEq, Repr

/-- The initial lifecycle state: a freshly constructed store, no destructor
call yet. -/
def MbSys.init : MbSys := { mb := some mailbox_new, freeCalls := 0 }

/-- Modelled from the spec: one lifecycle step.  `attach` binds the backend
(private data becomes non-null, open count rises); `close` goes through
`mailbox_close`; `free` destroys the store through `mailbox_free`, which is
the only step that may invoke the destructor; every operation on an
already-destroyed store is a no-op. -/
def stepOp (s : MbSys) (op : MbOp) : MbSys :=
  match s.mb with
  | none => s
  | some m =>
    match op with
    | .attach => { s with mb := some { m with mdata := true, opened := m.opened + 1 } }
    | .close => { s with mb := some (mailbox_close m).1 }
    | .free => { mb := none, freeCalls := s.freeCalls + mailbox_free m }
    | .appendOp e => { s with mb := some (append m e).1 }
    | .deleteOp i => { s with mb := some (delete_message m i).1 }
    | .purgeOp => { s with mb := some (purge m) }

/-- Run a whole sequence of lifecycle operations. -/
def runOps (s : MbSys) (ops : List MbOp) : MbSys := ops.foldl stepOp s

/-- View validity (spec sections 3 and 8): `vcount` agrees with the view
length, every entry of the virtual view is a real index strictly below the
record count (and hence names a live slot: purged records occupy no slot in
this model), and no real index occurs twice. -/
def viewValid (m : Mailbox) : Prop :=
  m.vcount = m.v2r.length ∧ (∀ i ∈ m.v2r, i < m.emails.length) ∧ m.v2r.Nodup

/-- The destructor ownership invariant of a lifecycle state: while the
store is alive no destructor call has happened, and in total the
destructor is invoked at most once. -/
def sysInv (s : MbSys) : Prop :=
  (s.mb.isSome → s.freeCalls = 0) ∧ s.freeCalls ≤ 1

/-- `mark_deleted` on every record, in slot order. -/
def mark_all_deleted (m : Mailbox) : Mailbox :=
  (List.range m.emails.length).foldl mark_deleted m

/-- The record in slot `j`, if it exists, is marked deleted. -/
def allDeletedAt (m : Mailbox) (j : Nat) : Prop :=
  ∀ e, m.emails[j]? = some e → e.deleted = true

/-- `append` of each record of a list in turn (keeping only the store). -/
def append_all (m : Mailbox) (rs : List Email) : Mailbox :=
  rs.foldl (fun acc e => (append acc e).1) m

/-! ## Helper lemmas -/

lemma insertOrdered_perm (le : Nat → Nat → Bool) (x : Nat) (l : List Nat) :
    (insertOrdered le x l).Perm (x :: l) := by
  induction l with
  | nil => simp [insertOrdered]
  | cons y ys ih =>
    simp only [insertOrdered]
    cases h : le x y with
    | true => simp
    | false =>
      simp only [Bool.false_eq_true, if_false]
      exact (ih.cons y).trans (List.Perm.swap x y ys)

lemma sortOrdered_perm (le : Nat → Nat → Bool) (l : List Nat) :
    (sortOrdered le l).Perm l := by
  induction l with
  | nil => simp [sortOrdered]
  | cons x xs ih =>
    have hdef : sortOrdered le (x :: xs) = insertOrdered le x (sortOrdered le xs) := rfl
    rw [hdef]
    exact (insertOrdered_perm le x _).trans (ih.cons x)

lemma sortOrdered_eq_self (le : Nat → Nat → Bool) (l : List Nat)
    (h : l.Pairwise (fun a b => le a b = true)) : sortOrdered le l = l := by
  induction l with
  | nil => rfl
  | cons x xs ih =>
    have hx : ∀ b ∈ xs, le x b = true := (List.pairwise_cons.mp h).1
    have hdef : sortOrdered le (x :: xs) = insertOrdered le x (sortOrdered le xs) := rfl
    rw [hdef, ih (List.pairwise_cons.mp h).2]
    cases xs with
    | nil => rfl
    | cons y ys => simp [insertOrdered, hx y (by simp)]

lemma viewSlots_lt (m : Mailbox) (p : Email → Bool) :
    ∀ i ∈ viewSlots m p, i < m.emails.length := by
  intro i hi
  exact List.mem_range.mp (List.mem_filter.mp hi).1

lemma viewSlots_nodup (m : Mailbox) (p : Email → Bool) : (viewSlots m p).Nodup :=
  List.Nodup.filter _ (List.nodup_range _)

lemma viewValid_mark_deleted (m : Mailbox) (i : Nat) (hv : viewValid m) :
    viewValid (mark_deleted m i) := by
  obtain ⟨h1, h2, h3⟩ := hv
  unfold mark_deleted
  cases h : m.emails[i]? with
  | none => exact ⟨h1, h2, h3⟩
  | some e =>
    refine ⟨h1, ?_, h3⟩
    intro j hj
    simpa [List.length_set] using h2 j hj

lemma viewValid_purge (m : Mailbox) : viewValid (purge m) := by
  refine ⟨by simp [purge], ?_, by simp [purge, List.nodup_range]⟩
  intro i hi
  simp only [purge] at hi ⊢
  exact List.mem_range.mp hi

lemma viewValid_rebuild_view (m : Mailbox) (p : Email → Bool) (le : Nat → Nat → Bool) :
    viewValid (rebuild_view m p le) := by
  refine ⟨rfl, ?_, ?_⟩
  · intro i hi
    simp only [rebuild_view] at hi
    exact viewSlots_lt m p i ((sortOrdered_perm le _).mem_iff.mp hi)
  · exact ((sortOrdered_perm le _).nodup_iff).mpr (viewSlots_nodup m p)

lemma mailbox_free_le_one (m : Mailbox) : mailbox_free m ≤ 1 := by
  unfold mailbox_free
  split <;> simp

lemma sysInv_step (s : MbSys) (op : MbOp) (h : sysInv s) : sysInv (stepOp s op) := by
  obtain ⟨mb, fc⟩ := s
  obtain ⟨h1, h2⟩ := h
  cases mb with
  | none => exact ⟨h1, h2⟩
  | some m =>
    have hz : fc = 0 := h1 rfl
    subst hz
    cases op with
    | free =>
      refine ⟨fun hs => ?_, ?_⟩
      · exact Bool.noConfusion hs
      · show 0 + mailbox_free m ≤ 1
        simpa using mailbox_free_le_one m
    | attach => exact ⟨fun _ => rfl, Nat.zero_le 1⟩
    | close => exact ⟨fun _ => rfl, Nat.zero_le 1⟩
    | appendOp e => exact ⟨fun _ => rfl, Nat.zero_le 1⟩
    | deleteOp i => exact ⟨fun _ => rfl, Nat.zero_le 1⟩
    | purgeOp => exact ⟨fun _ => rfl, Nat.zero_le 1⟩

lemma runOps_inv (ops : List MbOp) : ∀ s, sysInv s → sysInv (runOps s ops) := by
  induction ops with
  | nil => exact fun s h => h
  | cons op rest ih => exact fun s h => ih _ (sysInv_step s op h)

lemma two_pow_and_two_pow (i j : Nat) (h : i ≠ j) : 2 ^ i &&& 2 ^ j = 0 := by
  apply Nat.eq_of_testBit_eq
  intro k
  rw [Nat.testBit_and, Nat.testBit_two_pow, Nat.testBit_two_pow, Nat.zero_testBit]
  by_cases hik : i = k <;> by_cases hjk : j = k <;> simp_all

lemma and_or_disjoint (mask a b : Nat) (hab : a &&& b = 0) :
    (mask ||| a) &&& b = mask &&& b := by
  apply Nat.eq_of_testBit_eq
  intro k
  have h0 : (a.testBit k && b.testBit k) = false := by
    rw [← Nat.testBit_and, hab]
    exact Nat.zero_testBit k
  rw [Nat.testBit_and, Nat.testBit_or, Nat.testBit_and]
  cases ha : a.testBit k <;> cases hb : b.testBit k <;> simp_all

lemma and_mask_out_disjoint (mask a b allBits : Nat) (hab : a &&& b = 0)
    (hb : b &&& allBits = b) :
    (mask &&& (allBits ^^^ a)) &&& b = mask &&& b := by
  apply Nat.eq_of_testBit_eq
  intro k
  have h0 : (a.testBit k && b.testBit k) = false := by
    rw [← Nat.testBit_and, hab]
    exact Nat.zero_testBit k
  have h1 : (b.testBit k && allBits.testBit k) = b.testBit k := by
    rw [← Nat.testBit_and, hb]
  rw [Nat.testBit_and, Nat.testBit_and, Nat.testBit_xor, Nat.testBit_and]
  cases ha : a.testBit k <;> cases hbk : b.testBit k <;> cases hall : allBits.testBit k <;>
    simp_all

lemma aclCaps_eq : aclCaps = (List.range 11).map (fun i => 2 ^ i) := by decide

lemma mem_aclCaps (a : Nat) (ha : a ∈ aclCaps) : ∃ i, i < 11 ∧ a = 2 ^ i := by
  rw [aclCaps_eq] at ha
  obtain ⟨i, hi, hfa⟩ := List.mem_map.mp ha
  exact ⟨i, List.mem_range.mp hi, hfa.symm⟩

lemma two_pow_and_all (j : Nat) (hj : j < 11) : 2 ^ j &&& MUTT_ACL_ALL = 2 ^ j := by
  have hall : MUTT_ACL_ALL = 2 ^ 11 - 1 := by decide
  rw [hall]
  apply Nat.eq_of_testBit_eq
  intro k
  rw [Nat.testBit_and, Nat.testBit_two_pow, Nat.testBit_two_pow_sub_one]
  by_cases hjk : j = k
  · subst hjk
    simp [hj]
  · simp [hjk]

lemma mark_deleted_length (m : Mailbox) (i : Nat) :
    (mark_deleted m i).emails.length = m.emails.length := by
  unfold mark_deleted
  cases h : m.emails[i]? with
  | none => rfl
  | some e => simp [List.length_set]

lemma mark_deleted_getElem? (m : Mailbox) (i j : Nat) :
    (mark_deleted m i).emails[j]? =
      if i = j then (m.emails[j]?).map (fun e => { e with deleted := true })
      else m.emails[j]? := by
  unfold mark_deleted
  cases h : m.emails[i]? with
  | none =>
    by_cases hij : i = j
    · subst hij
      simp [h]
    · simp [hij]
  | some e =>
    obtain ⟨hlt, _⟩ := List.getElem?_eq_some.mp h
    by_cases hij : i = j
    · subst hij
      simp [List.getElem?_set_self hlt, h]
    · simp [List.getElem?_set_ne hij, hij]

lemma mark_deleted_sets (m : Mailbox) (i : Nat) : allDeletedAt (mark_deleted m i) i := by
  intro e he
  rw [mark_deleted_getElem?, if_pos rfl] at he
  obtain ⟨e0, _, rfl⟩ := Option.map_eq_some'.mp he
  rfl

lemma mark_deleted_pres (m : Mailbox) (i j : Nat) (h : allDeletedAt m j) :
    allDeletedAt (mark_deleted m i) j := by
  intro e he
  rw [mark_deleted_getElem?] at he
  by_cases hij : i = j
  · rw [if_pos hij] at he
    obtain ⟨e0, _, rfl⟩ := Option.map_eq_some'.mp he
    rfl
  · rw [if_neg hij] at he
    exact h e he

lemma foldl_mark_deleted_length (idx : List Nat) : ∀ m : Mailbox,
    (idx.foldl mark_deleted m).emails.length = m.emails.length := by
  induction idx with
  | nil => intro m; rfl
  | cons i rest ih =>
    intro m
    rw [List.foldl_cons, ih, mark_deleted_length]

lemma foldl_mark_deleted_all (idx : List Nat) : ∀ (m : Mailbox) (j : Nat),
    j ∈ idx ∨ allDeletedAt m j → allDeletedAt (idx.foldl mark_deleted m) j := by
  induction idx with
  | nil =>
    intro m j h
    exact h.resolve_left (by simp)
  | cons i rest ih =>
    intro m j h
    rw [List.foldl_cons]
    rcases h with hmem | hdel
    · rcases List.mem_cons.mp hmem with rfl | hrest
      · exact ih _ j (Or.inr (mark_deleted_sets m j))
      · exact ih _ j (Or.inl hrest)
    · exact ih _ j (Or.inr (mark_deleted_pres m i j hdel))

lemma mark_all_deleted_all (m : Mailbox) :
    ∀ e ∈ (mark_all_deleted m).emails, e.deleted = true := by
  intro e he
  obtain ⟨j, hj⟩ := List.mem_iff_getElem?.mp he
  by_cases hlt : j < m.emails.length
  · exact foldl_mark_deleted_all _ m j (Or.inl (List.mem_range.mpr hlt)) e hj
  · exfalso
    have hnone : (mark_all_deleted m).emails[j]? = none := by
      apply List.getElem?_eq_none
      rw [mark_all_deleted, foldl_mark_deleted_length]
      omega
    rw [hnone] at hj
    exact Option.noConfusion hj

lemma append_all_emails (rs : List Email) : ∀ m : Mailbox,
    (append_all m rs).emails = m.emails ++ rs := by
  induction rs with
  | nil => intro m; simp [append_all]
  | cons e rest ih =>
    intro m
    show (append_all (append m e).1 rest).emails = m.emails ++ (e :: rest)
    rw [ih]
    simp [append]

lemma viewSlots_true (m : Mailbox) :
    viewSlots m (fun _ => true) = List.range m.emails.length := by
  unfold viewSlots
  rw [List.filter_eq_self]
  intro i hi
  have hlt := List.mem_range.mp hi
  simp [List.getElem?_eq_getElem hlt]

lemma range_pairwise_le (n : Nat) :
    (List.range n).Pairwise (fun a b => (decide (a ≤ b)) = true) :=
  (List.pairwise_lt_range n).imp (fun h => decide_eq_true (Nat.le_of_lt h))

/-! ## Claim theorems -/

/-- C1.  View-validity invariant: for every store, at all times — i.e. for
the freshly constructed store and through every mutating operation — every
entry of the virtual view `v2r` (all `vcount` of them, since `vcount`
equals the view length) is a valid real index strictly below the record
count, refers to a live (not deleted-and-purged) record, and no real index
occurs twice in the view. -/
theorem view_validity_invariant :
    viewValid mailbox_new ∧
    (∀ m e, viewValid m → viewValid (append m e).1) ∧
    (∀ m i, viewValid m → viewValid (mark_deleted m i)) ∧
    (∀ m i, viewValid m → viewValid (delete_message m i).1) ∧
    (∀ m, viewValid (purge m)) ∧
    (∀ m p le, viewValid (rebuild_view m p le)) := by
  refine ⟨⟨rfl, by simp [mailbox_new], List.nodup_nil⟩, ?_, viewValid_mark_deleted, ?_,
    viewValid_purge, viewValid_rebuild_view⟩
  · rintro m e ⟨h1, h2, h3⟩
    refine ⟨h1, ?_, h3⟩
    intro i hi
    have hlt := h2 i hi
    simp only [append, List.length_append, List.length_cons, List.length_nil]
    omega
  · intro m i hv
    unfold delete_message
    split
    · exact hv
    · split
      · exact viewValid_mark_deleted m i hv
      · exact hv

/-- Witness for C1: the preservation clauses applied at a concrete store
and operation. -/
theorem view_validity_invariant_witness :
    viewValid (append mailbox_new { id := "a", subject := "s", label := "", deleted := false }).1 ∧
    viewValid (purge mailbox_new) :=
  ⟨view_validity_invariant.2.1 mailbox_new _
      ⟨rfl, by simp [mailbox_new], List.nodup_nil⟩,
    view_validity_invariant.2.2.2.2.1 mailbox_new⟩

/-- C2.  Single ownership of backend private data: over any whole lifecycle
of a store the destructor `free_mdata` is invoked at most once; destroying
a store whose private data is null invokes it zero times; and no operation
other than destruction ever invokes it. -/
theorem single_ownership_mdata :
    (∀ ops, (runOps MbSys.init ops).freeCalls ≤ 1) ∧
    (∀ s m, s.mb = some m → m.mdata = false →
      (stepOp s MbOp.free).freeCalls = s.freeCalls) ∧
    (∀ s op, op ≠ MbOp.free → (stepOp s op).freeCalls = s.freeCalls) := by
  refine ⟨?_, ?_, ?_⟩
  · intro ops
    exact (runOps_inv ops MbSys.init ⟨fun _ => rfl, Nat.zero_le 1⟩).2
  · intro s m hmb hmd
    obtain ⟨mb, fc⟩ := s
    cases hmb
    show fc + mailbox_free m = fc
    simp [mailbox_free, hmd]
  · intro s op hop
    obtain ⟨mb, fc⟩ := s
    cases mb with
    | none => rfl
    | some m =>
      cases op with
      | free => exact absurd rfl hop
      | attach => rfl
      | close => rfl
      | appendOp e => rfl
      | deleteOp i => rfl
      | purgeOp => rfl

/-- Witness for C2: a concrete lifecycle — attach a backend, destroy the
store, try to destroy again — performs at most one destructor call;
destroying a store without private data performs none; a purge performs
none. -/
theorem single_ownership_mdata_witness :
    (runOps MbSys.init [MbOp.attach, MbOp.free, MbOp.free]).freeCalls ≤ 1 ∧
    (stepOp MbSys.init MbOp.free).freeCalls = MbSys.init.freeCalls ∧
    (stepOp MbSys.init MbOp.purgeOp).freeCalls = MbSys.init.freeCalls :=
  ⟨single_ownership_mdata.1 [MbOp.attach, MbOp.free, MbOp.free],
   single_ownership_mdata.2.1 MbSys.init mailbox_new rfl rfl,
   single_ownership_mdata.2.2 MbSys.init MbOp.purgeOp (by decide)⟩

/-- C9.  Close idempotence: closing an already-closed store (open count
zero) returns the defined error `AlreadyClosed` and leaves the store
unchanged; doing it twice in a row behaves the same, and in the lifecycle
system the double close never invokes the backend destructor (the
destructor-call counter is untouched), whatever half-initialized state the
store is in otherwise. -/
theorem close_idempotent (m : Mailbox) (h : m.opened = 0) :
    mailbox_close m = (m, some MbError.AlreadyClosed) ∧
    mailbox_close (mailbox_close m).1 = (m, some MbError.AlreadyClosed) ∧
    ∀ s, s.mb = some m →
      (stepOp (stepOp s MbOp.close) MbOp.close).mb = some m ∧
      (stepOp (stepOp s MbOp.close) MbOp.close).freeCalls = s.freeCalls := by
  have hc : mailbox_close m = (m, some MbError.AlreadyClosed) := by
    simp [mailbox_close, h]
  refine ⟨hc, by rw [hc]; exact hc, ?_⟩
  intro s hs
  constructor <;> simp [stepOp, hs, hc]

/-- Witness for C9: a fresh store has open count zero; closing it twice
reports the defined error and leaves the destructor-call count of the
initial lifecycle state unchanged. -/
theorem close_idempotent_witness :
    mailbox_close mailbox_new = (mailbox_new, some MbError.AlreadyClosed) ∧
    (stepOp (stepOp MbSys.init MbOp.close) MbOp.close).freeCalls = MbSys.init.freeCalls :=
  ⟨(close_idempotent mailbox_new rfl).1,
   ((close_idempotent mailbox_new rfl).2.2 MbSys.init rfl).2⟩

/-- C3.  Toggle involution: toggle maps No to Yes, Yes to No, AskNo to
AskYes, AskYes to AskNo, and therefore toggling twice returns every
confirmation value in {No, Yes, AskNo, AskYes} to itself. -/
theorem quad_toggle_involution (v : QuadOption) (h : v ≠ QuadOption.MUTT_ABORT) :
    quad_toggle QuadOption.MUTT_NO = Except.ok QuadOption.MUTT_YES ∧
    quad_toggle QuadOption.MUTT_YES = Except.ok QuadOption.MUTT_NO ∧
    quad_toggle QuadOption.MUTT_ASKNO = Except.ok QuadOption.MUTT_ASKYES ∧
    quad_toggle QuadOption.MUTT_ASKYES = Except.ok QuadOption.MUTT_ASKNO ∧
    (quad_toggle v).bind quad_toggle = Except.ok v := by
  refine ⟨rfl, rfl, rfl, rfl, ?_⟩
  cases v with
  | MUTT_ABORT => exact absurd rfl h
  | MUTT_NO => rfl
  | MUTT_YES => rfl
  | MUTT_ASKNO => rfl
  | MUTT_ASKYES => rfl

/-- Witness for C3: the double toggle at the concrete value No. -/
theorem quad_toggle_involution_witness :
    (quad_toggle QuadOption.MUTT_NO).bind quad_toggle = Except.ok QuadOption.MUTT_NO :=
  (quad_toggle_involution QuadOption.MUTT_NO (by decide)).2.2.2.2

/-- C4.  Toggle rejection: toggling Abort, or any value bound by a fixed
administrator-locked policy, fails with the ImmutablePolicy error and never
silently returns a confirmation value. -/
theorem quad_toggle_rejects_locked (v : QuadOption) :
    quad_toggle QuadOption.MUTT_ABORT = Except.error MbError.ImmutablePolicy ∧
    quad_he_toggle false QuadOption.MUTT_ABORT = Except.error MbError.ImmutablePolicy ∧
    quad_he_toggle true v = Except.error MbError.ImmutablePolicy ∧
    (∀ w, quad_he_toggle true v ≠ Except.ok w) ∧
    (∀ w, quad_toggle QuadOption.MUTT_ABORT ≠ Except.ok w) := by
  refine ⟨rfl, rfl, rfl, ?_, ?_⟩ <;> exact fun w hw => Except.noConfusion hw

/-- Witness for C4: the locked toggle of the concrete value Yes fails with
the ImmutablePolicy error. -/
theorem quad_toggle_rejects_locked_witness :
    quad_he_toggle true QuadOption.MUTT_YES = Except.error MbError.ImmutablePolicy :=
  (quad_toggle_rejects_locked QuadOption.MUTT_YES).2.2.1

/-- C7.  Default rights: a store returned by the constructor has its rights
mask equal to MUTT_ACL_ALL, with every one of the eleven capability bits
set. -/
theorem mailbox_new_default_rights :
    mailbox_new.rights = MUTT_ACL_ALL ∧
    ∀ c ∈ aclCaps, mailbox_new.rights &&& c = c := by
  refine ⟨rfl, ?_⟩
  decide

/-- Witness for C7: the delete capability is granted by the fresh store's
rights mask. -/
theorem mailbox_new_default_rights_witness :
    mailbox_new.rights &&& MUTT_ACL_DELETE = MUTT_ACL_DELETE :=
  mailbox_new_default_rights.2 MUTT_ACL_DELETE (by decide)

/-- C8.  Permission-denied frame: on a store whose rights mask has only the
Read bit set, a delete-message attempt is rejected with PermissionDenied
and the store — in particular its real record count — comes back exactly
unchanged. -/
theorem delete_denied_frame (m : Mailbox) (i : Nat) (h : m.rights = MUTT_ACL_READ) :
    delete_message m i = (m, some MbError.PermissionDenied) ∧
    (delete_message m i).1.emails.length = m.emails.length := by
  have hz : m.rights &&& MUTT_ACL_DELETE = 0 := by
    rw [h]
    decide
  have hd : delete_message m i = (m, some MbError.PermissionDenied) := by
    simp [delete_message, hz]
  exact ⟨hd, by rw [hd]⟩

/-- Witness for C8: a concrete read-only store rejects a delete with no
effect. -/
theorem delete_denied_frame_witness :
    delete_message { mailbox_new with rights := MUTT_ACL_READ } 0 =
      ({ mailbox_new with rights := MUTT_ACL_READ }, some MbError.PermissionDenied) :=
  (delete_denied_frame { mailbox_new with rights := MUTT_ACL_READ } 0 rfl).1

/-- C10.  Rights-mask encoding: the eleven capability constants are exactly
the single-bit values of bits 0 through 10 (so pairwise disjoint), their
bitwise union is MUTT_ACL_ALL = (1 << 11) - 1, which fits the 16-bit
AclFlags; consequently granting (bitwise or) or revoking (bitwise and with
the complement within MUTT_ACL_ALL) one capability never changes the
presence of any other capability in the mask. -/
theorem acl_bits_encoding :
    aclCaps = (List.range 11).map (fun i => 2 ^ i) ∧
    List.Pairwise (fun a b => a &&& b = 0) aclCaps ∧
    aclCaps.foldr (fun a b => a ||| b) 0 = MUTT_ACL_ALL ∧
    MUTT_ACL_ALL = (1 <<< 11) - 1 ∧
    MUTT_ACL_ALL = 2 ^ 11 - 1 ∧
    MUTT_ACL_ALL < 2 ^ 16 ∧
    (∀ mask a b, a ∈ aclCaps → b ∈ aclCaps → a ≠ b →
      (mask ||| a) &&& b = mask &&& b ∧
      (mask &&& (MUTT_ACL_ALL ^^^ a)) &&& b = mask &&& b) := by
  refine ⟨by decide, by decide, by decide, rfl, by decide, by decide, ?_⟩
  intro mask a b ha hb hab
  obtain ⟨i, hi, rfl⟩ := mem_aclCaps a ha
  obtain ⟨j, hj, rfl⟩ := mem_aclCaps b hb
  have hij : i ≠ j := fun hh => hab (by rw [hh])
  have hd : 2 ^ i &&& 2 ^ j = 0 := two_pow_and_two_pow i j hij
  exact ⟨and_or_disjoint mask _ _ hd,
    and_mask_out_disjoint mask _ _ _ hd (two_pow_and_all j hj)⟩

/-- Witness for C10: granting the create capability or revoking it leaves
the seen capability of a concrete mask untouched. -/
theorem acl_bits_encoding_witness :
    (12345 ||| MUTT_ACL_CREATE) &&& MUTT_ACL_SEEN = 12345 &&& MUTT_ACL_SEEN ∧
    (12345 &&& (MUTT_ACL_ALL ^^^ MUTT_ACL_CREATE)) &&& MUTT_ACL_SEEN =
      12345 &&& MUTT_ACL_SEEN :=
  acl_bits_encoding.2.2.2.2.2.2 12345 MUTT_ACL_CREATE MUTT_ACL_SEEN
    (by decide) (by decide) (by decide)

/-- C5.  Purge consistency: after `mark_deleted` on every record and then
`purge()`, the real record count is 0, `vcount` is 0, the view is empty,
and all three cross-reference indices are empty. -/
theorem purge_consistency (m : Mailbox) :
    (purge (mark_all_deleted m)).emails = [] ∧
    (purge (mark_all_deleted m)).emails.length = 0 ∧
    (purge (mark_all_deleted m)).vcount = 0 ∧
    (purge (mark_all_deleted m)).v2r = [] ∧
    (purge (mark_all_deleted m)).id_hash = [] ∧
    (purge (mark_all_deleted m)).subj_hash = [] ∧
    (purge (mark_all_deleted m)).label_hash = [] := by
  have hfil : (mark_all_deleted m).emails.filter (fun e => !e.deleted) = [] := by
    rw [List.filter_eq_nil_iff]
    intro e he
    simp [mark_all_deleted_all m e he]
  refine ⟨?_, ?_, ?_, ?_, ?_, ?_, ?_⟩ <;> simp [purge, hfil, buildIndex]

/-- Witness for C5: a concrete two-record store, all records marked deleted
and then purged, comes back fully empty. -/
theorem purge_consistency_witness :
    (purge (mark_all_deleted (append_all mailbox_new
      [{ id := "a", subject := "Hi", label := "", deleted := false },
       { id := "b", subject := "Re", label := "", deleted := false }]))).emails = [] :=
  (purge_consistency (append_all mailbox_new
    [{ id := "a", subject := "Hi", label := "", deleted := false },
     { id := "b", subject := "Re", label := "", deleted := false }])).1

/-- C6.  Round-trip of append and rebuild: appending every record of a
sequence to a fresh store and rebuilding the view with the always-true
predicate and the stable insertion-order comparator yields the view
`0, 1, ..., n-1` — insertion order of all the (non-deleted) records. -/
theorem append_rebuild_round_trip (records : List Email)
    (h : ∀ r ∈ records, r.deleted = false) :
    (rebuild_view (append_all mailbox_new records) (fun _ => true)
        (fun i j => decide (i ≤ j))).emails = records ∧
    (rebuild_view (append_all mailbox_new records) (fun _ => true)
        (fun i j => decide (i ≤ j))).v2r = List.range records.length ∧
    (rebuild_view (append_all mailbox_new records) (fun _ => true)
        (fun i j => decide (i ≤ j))).vcount = records.length ∧
    (∀ i ∈ (rebuild_view (append_all mailbox_new records) (fun _ => true)
        (fun i j => decide (i ≤ j))).v2r,
      ((records[i]?).all fun r => !r.deleted) = true) := by
  have hm : (append_all mailbox_new records).emails = records := by
    rw [append_all_emails]
    rfl
  have hv : viewSlots (append_all mailbox_new records) (fun _ => true) =
      List.range records.length := by
    rw [viewSlots_true, hm]
  have hs : sortOrdered (fun i j => decide (i ≤ j)) (List.range records.length) =
      List.range records.length :=
    sortOrdered_eq_self _ _ (range_pairwise_le _)
  have hview : (rebuild_view (append_all mailbox_new records) (fun _ => true)
      (fun i j => decide (i ≤ j))).v2r = List.range records.length := by
    show sortOrdered (fun i j => decide (i ≤ j))
      (viewSlots (append_all mailbox_new records) (fun _ => true)) = _
    rw [hv, hs]
  refine ⟨hm, hview, ?_, ?_⟩
  · show (sortOrdered (fun i j => decide (i ≤ j))
      (viewSlots (append_all mailbox_new records) (fun _ => true))).length = _
    rw [hv, hs, List.length_range]
  · intro i hi
    rw [hview] at hi
    have hlt := List.mem_range.mp hi
    rw [List.getElem?_eq_getElem hlt]
    simpa using h records[i] (List.getElem_mem hlt)

/-- Witness for C6: two concrete fresh (non-deleted) records appended and
the view rebuilt in stable insertion order give the view [0, 1]. -/
theorem append_rebuild_round_trip_witness :
    (rebuild_view (append_all mailbox_new
        [{ id := "a", subject := "Hi", label := "", deleted := false },
         { id := "b", subject := "Re", label := "", deleted := false }])
      (fun _ => true) (fun i j => decide (i ≤ j))).v2r = List.range 2 :=
  (append_rebuild_round_trip
    [{ id := "a", subject := "Hi", label := "", deleted := false },
     { id := "b", subject := "Re", label := "", deleted := false }]
    (by decide)).2.1

end Neomutt

